import Mathlib

set_option maxRecDepth 100000

/-!
A verification development for the supply-chain blockchain replica
(`blockchain.py`, `blockchain_service.py`, `election.py`, `crypto_utils.py`).

The embedding is executable: blocks are hashed with a real SHA-256 over the
exact byte sequence `json.dumps(block_data, sort_keys=True).encode()` that
`Block.compute_hash` produces, so concrete blocks accepted or rejected by the
model are accepted or rejected by the program.

Modelling notes, fixed once here:
* Machine integers do not occur; Python integers are `Nat`, with `% 2 ^ 32`
  written out inside SHA-256 where 32-bit wrapping happens.
* Transaction `metadata` is modelled as a string-to-string association list
  (the repository only ever stores flat string maps such as
  `{"from": ..., "to": ...}`); `json.dumps(..., sort_keys=True)` sorting is
  reproduced at serialisation time.
* RSA signature verification (`crypto_utils.verify_transaction`) is kept
  abstract as a parameter `vf : Tx → Bool`; every theorem quantifies over it,
  and the concrete runs below only use unsigned transactions, for which the
  code never calls the verifier.
* Network, persistence (sqlite/JSON files) and logging are out of the model:
  they do not feed back into the chain/mempool state machine.
-/

/-! ## SHA-256 over byte lists (bytes are `Nat`, words are `Nat % 2^32`) -/

def rotr32 (x n : Nat) : Nat := (x / 2 ^ n + (x % 2 ^ n) * 2 ^ (32 - n)) % 2 ^ 32

def shr32 (x n : Nat) : Nat := x / 2 ^ n

def not32 (x : Nat) : Nat := 2 ^ 32 - 1 - x

def xor3 (a b c : Nat) : Nat := Nat.xor (Nat.xor a b) c

def smallSigma0 (x : Nat) : Nat := xor3 (rotr32 x 7) (rotr32 x 18) (shr32 x 3)

def smallSigma1 (x : Nat) : Nat := xor3 (rotr32 x 17) (rotr32 x 19) (shr32 x 10)

def bigSigma0 (x : Nat) : Nat := xor3 (rotr32 x 2) (rotr32 x 13) (rotr32 x 22)

def bigSigma1 (x : Nat) : Nat := xor3 (rotr32 x 6) (rotr32 x 11) (rotr32 x 25)

def chFun (x y z : Nat) : Nat := Nat.xor (Nat.land x y) (Nat.land (not32 x) z)

def majFun (x y z : Nat) : Nat :=
  Nat.xor (Nat.xor (Nat.land x y) (Nat.land x z)) (Nat.land y z)

/-- The 64 SHA-256 round constants, written in decimal. -/
def shaK : List Nat :=
  [1116352408, 1899447441, 3049323471, 3921009573, 961987163,
   1508970993, 2453635748, 2870763221, 3624381080, 310598401,
   607225278, 1426881987, 1925078388, 2162078206, 2614888103,
   3248222580, 3835390401, 4022224774, 264347078, 604807628,
   770255983, 1249150122, 1555081692, 1996064986, 2554220882,
   2821834349, 2952996808, 3210313671, 3336571891, 3584528711,
   113926993, 338241895, 666307205, 773529912, 1294757372,
   1396182291, 1695183700, 1986661051, 2177026350, 2456956037,
   2730485921, 2820302411, 3259730800, 3345764771, 3516065817,
   3600352804, 4094571909, 275423344, 430227734, 506948616,
   659060556, 883997877, 958139571, 1322822218, 1537002063,
   1747873779, 1955562222, 2024104815, 2227730452, 2361852424,
   2428436474, 2756734187, 3204031479, 3329325298]

/-- The SHA-256 initial state, written in decimal. -/
def shaH0 : List Nat :=
  [1779033703, 3144134277, 1013904242, 2773480762, 1359893119,
   2600822924, 528734635, 1541459225]

def lenBytes64 (n : Nat) : List Nat :=
  (List.range 8).map fun i => n / 2 ^ (8 * (7 - i)) % 256

def padMessage (msg : List Nat) : List Nat :=
  let padZeros := (55 + 64 - msg.length % 64) % 64
  msg ++ [0x80] ++ List.replicate padZeros 0 ++ lenBytes64 (8 * msg.length)

def bytesToWords : List Nat → List Nat
  | a :: b :: c :: d :: rest => (((a * 256 + b) * 256 + c) * 256 + d) :: bytesToWords rest
  | _ => []

def extendLoop : Nat → List Nat → List Nat
  | 0, w => w
  | n + 1, w =>
    let t := w.length
    let x := (w.getD (t - 16) 0 + smallSigma0 (w.getD (t - 15) 0)
              + w.getD (t - 7) 0 + smallSigma1 (w.getD (t - 2) 0)) % 2 ^ 32
    extendLoop n (w ++ [x])

def compressRound (st : List Nat) (kw : Nat) : List Nat :=
  match st with
  | [a, b, c, d, e, f, g, h] =>
    let t1 := (h + bigSigma1 e + chFun e f g + kw) % 2 ^ 32
    let t2 := (bigSigma0 a + majFun a b c) % 2 ^ 32
    [(t1 + t2) % 2 ^ 32, a, b, c, (d + t1) % 2 ^ 32, e, f, g]
  | other => other

def compressChunk (hs : List Nat) (chunkWords : List Nat) : List Nat :=
  let w := extendLoop 48 chunkWords
  let st := (List.zip shaK w).foldl (fun st p => compressRound st ((p.1 + p.2) % 2 ^ 32)) hs
  List.zipWith (fun x y => (x + y) % 2 ^ 32) hs st

def shaLoop : Nat → List Nat → List Nat → List Nat
  | 0, hs, _ => hs
  | fuel + 1, hs, bytes =>
    match bytes with
    | [] => hs
    | _ => shaLoop fuel (compressChunk hs (bytesToWords (bytes.take 64))) (bytes.drop 64)

def hexDigit (n : Nat) : Char :=
  if n < 10 then Char.ofNat (48 + n) else Char.ofNat (87 + n)

def wordHex (w : Nat) : List Char :=
  (List.range 8).map fun i => hexDigit (w / 2 ^ (4 * (7 - i)) % 16)

def sha256hex (msg : List Nat) : String :=
  let padded := padMessage msg
  String.mk ((shaLoop (padded.length / 64 + 1) shaH0 padded).flatMap wordHex)

/-! ## UTF-8 encoding of strings (what `str.encode()` produces) -/

def utf8Encode (n : Nat) : List Nat :=
  if n < 0x80 then [n]
  else if n < 0x800 then [0xC0 + n / 64, 0x80 + n % 64]
  else if n < 0x10000 then [0xE0 + n / 4096, 0x80 + n / 64 % 64, 0x80 + n % 64]
  else [0xF0 + n / 262144, 0x80 + n / 4096 % 64, 0x80 + n / 64 % 64, 0x80 + n % 64]

def strBytes (s : String) : List Nat := s.data.flatMap fun c => utf8Encode c.toNat

/-! ## The canonical JSON used by `Block.compute_hash`:
`json.dumps(block_data, sort_keys=True)` with Python's default separators
(a comma-space between items, a colon-space after keys, `ensure_ascii`). -/

def uEscape (n : Nat) : List Char :=
  ['\\', 'u', hexDigit (n / 4096 % 16), hexDigit (n / 256 % 16),
   hexDigit (n / 16 % 16), hexDigit (n % 16)]

def jsonEscapeChar (c : Char) : List Char :=
  let n := c.toNat
  if c = '"' then ['\\', '"']
  else if c = '\\' then ['\\', '\\']
  else if c = '\n' then ['\\', 'n']
  else if c = '\r' then ['\\', 'r']
  else if c = '\t' then ['\\', 't']
  else if n = 8 then ['\\', 'b']
  else if n = 12 then ['\\', 'f']
  else if n < 32 ∨ n > 126 then
    if n < 0x10000 then uEscape n
    else uEscape (0xD800 + (n - 0x10000) / 1024) ++ uEscape (0xDC00 + (n - 0x10000) % 1024)
  else [c]

def jsonStr (s : String) : String :=
  "\"" ++ String.mk (s.data.flatMap jsonEscapeChar) ++ "\""

def joinStr (sep : String) : List String → String
  | [] => ""
  | [x] => x
  | x :: y :: xs => x ++ sep ++ joinStr sep (y :: xs)

/-- Key-value pairs sorted by key, as `sort_keys=True` sorts a Python dict. -/
def insertSorted (p : String × String) : List (String × String) → List (String × String)
  | [] => [p]
  | q :: qs => if p.1 ≤ q.1 then p :: q :: qs else q :: insertSorted p qs

def sortByKey (l : List (String × String)) : List (String × String) :=
  l.foldr insertSorted []

abbrev Metadata := List (String × String)

def jsonMetadata (md : Metadata) : String :=
  "\x7b" ++ joinStr ", " ((sortByKey md).map fun p => jsonStr p.1 ++ ": " ++ jsonStr p.2)
    ++ "\x7d"

/-! ## Data model: transactions, blocks, replica state (`blockchain.py`) -/

/-- A transaction dict as built by `Blockchain.add_transaction`: the keys
`batch_id`, `action`, `actor`, `metadata` are always present; `timestamp`,
`signature` and `public_key` are present only when set (`Option`). -/
structure Tx where
  batch_id : String
  action : String
  actor : String
  metadata : Metadata
  timestamp : Option String := none
  signature : Option String := none
  public_key : Option String := none
deriving DecidableEq, Repr

/-- A block dict (`Block.to_dict`): the five hashed fields plus the stored
`hash` field. -/
structure Block where
  index : Nat
  timestamp : String
  transactions : List Tx
  previous_hash : String
  nonce : Nat
  hash : String
deriving DecidableEq, Repr

/-- Serialisation of one transaction dict inside `block_data["transactions"]`,
with keys in sorted order: `action < actor < batch_id < metadata <
public_key < signature < timestamp`; absent keys are omitted. -/
def jsonTx (tx : Tx) : String :=
  let items : List String :=
    [jsonStr "action" ++ ": " ++ jsonStr tx.action,
     jsonStr "actor" ++ ": " ++ jsonStr tx.actor,
     jsonStr "batch_id" ++ ": " ++ jsonStr tx.batch_id,
     jsonStr "metadata" ++ ": " ++ jsonMetadata tx.metadata]
    ++ (match tx.public_key with
        | some pk => [jsonStr "public_key" ++ ": " ++ jsonStr pk]
        | none => [])
    ++ (match tx.signature with
        | some sg => [jsonStr "signature" ++ ": " ++ jsonStr sg]
        | none => [])
    ++ (match tx.timestamp with
        | some ts => [jsonStr "timestamp" ++ ": " ++ jsonStr ts]
        | none => [])
  "\x7b" ++ joinStr ", " items ++ "\x7d"

def jsonTxList (txs : List Tx) : String :=
  "[" ++ joinStr ", " (txs.map jsonTx) ++ "]"

/-- The canonical JSON of `block_data` in `Block.compute_hash`, keys sorted:
`index < nonce < previous_hash < timestamp < transactions`. -/
def jsonBlockData (index : Nat) (timestamp : String) (txs : List Tx)
    (prev : String) (nonce : Nat) : String :=
  "\x7b" ++ joinStr ", "
    [jsonStr "index" ++ ": " ++ Nat.repr index,
     jsonStr "nonce" ++ ": " ++ Nat.repr nonce,
     jsonStr "previous_hash" ++ ": " ++ jsonStr prev,
     jsonStr "timestamp" ++ ": " ++ jsonStr timestamp,
     jsonStr "transactions" ++ ": " ++ jsonTxList txs]
  ++ "\x7d"

/-- `Block.compute_hash` on the five hashed fields (the stored `hash` field
is not part of the hashed dict). -/
def hashOfData (index : Nat) (timestamp : String) (txs : List Tx)
    (prev : String) (nonce : Nat) : String :=
  sha256hex (strBytes (jsonBlockData index timestamp txs prev nonce))

def Block.compute_hash (b : Block) : String :=
  hashOfData b.index b.timestamp b.transactions b.previous_hash b.nonce

/-- The in-memory `Blockchain` state that the chain/mempool state machine
reads and writes (network and persistence fields are omitted: they never feed
back into validation, mining or acceptance). -/
structure BCState where
  chain : List Block
  mempool : List Tx
  difficulty : Nat
  enable_crypto : Bool
  max_mempool_size : Nat
  current_metadata : Metadata
deriving DecidableEq, Repr

/-- `create_genesis_block`: `Block(0, now, [], "0")` with its computed hash. -/
def genesisBlock (g : String) : Block :=
  { index := 0, timestamp := g, transactions := [], previous_hash := "0",
    nonce := 0, hash := hashOfData 0 g [] "0" 0 }

/-- A fresh replica state right after `Blockchain.__init__` created the
genesis block (no persisted state). -/
def initState (difficulty : Nat) (enable_crypto : Bool) (max_mempool_size : Nat)
    (g : String) : BCState :=
  { chain := [genesisBlock g], mempool := [], difficulty := difficulty,
    enable_crypto := enable_crypto, max_mempool_size := max_mempool_size,
    current_metadata := [] }

/-! ## Batch history and the transaction validator -/

/-- One entry of `Blockchain.get_history`: the transaction dict copied out of a
block, with the added reporting fields. The code converts the block timestamp
to an epoch float; the ISO string is kept verbatim here (the conversion feeds
no validation). -/
structure HistEntry where
  tx : Tx
  block_timestamp : String
  signature_valid : Option Bool
  has_signature : Bool
deriving DecidableEq, Repr

/-- `Blockchain.get_history`: all on-chain transactions of a batch, in block
order and within-block order, each flagged per lines 623-628 of
`blockchain.py`. -/
def get_history (s : BCState) (batch_id : String) : List HistEntry :=
  s.chain.flatMap fun blk =>
    (blk.transactions.filter fun tx => tx.batch_id == batch_id).map fun tx =>
      if s.enable_crypto ∧ tx.signature.isSome then
        { tx := tx, block_timestamp := blk.timestamp,
          signature_valid := some true, has_signature := true }
      else
        { tx := tx, block_timestamp := blk.timestamp,
          signature_valid := none, has_signature := false }

def existingActions (s : BCState) (batch_id : String) : List String :=
  (get_history s batch_id).map fun e => e.tx.action

def mempoolActions (s : BCState) (batch_id : String) : List String :=
  (s.mempool.filter fun tx => tx.batch_id == batch_id).map fun tx => tx.action

/-- The rejection reasons of `validate_transaction_order`, one per `return
False` site (the human-readable message strings are abstracted to an enum). -/
inductive OrderReason
  | valid | alreadyPerformed | alreadyPending | invalidAction | missingPrerequisite
deriving DecidableEq, Repr

/-- The `strict_sequence` dict: `some p` when the action is a workflow verb
with predecessor requirement `p` (`none` inside means no prerequisite). -/
def strict_sequence (action : String) : Option (Option String) :=
  if action == "registered" then some none
  else if action == "quality_checked" then some (some "registered")
  else if action == "shipped" then some (some "quality_checked")
  else if action == "received" then some (some "shipped")
  else if action == "stored" then some (some "received")
  else if action == "delivered" then some (some "stored")
  else if action == "received_retail" then some (some "delivered")
  else if action == "sold" then some (some "received_retail")
  else none

/-- `Blockchain.validate_transaction_order`, checks in source order:
duplicate on chain, duplicate in mempool, known action, prerequisite present
in chain actions followed by mempool actions. -/
def validate_transaction_order (s : BCState) (batch_id action _actor : String) :
    Bool × OrderReason :=
  let existing := existingActions s batch_id
  let mp := mempoolActions s batch_id
  if action ∈ existing then (false, .alreadyPerformed)
  else if action ∈ mp then (false, .alreadyPending)
  else
    match strict_sequence action with
    | none => (false, .invalidAction)
    | some none => (true, .valid)
    | some (some required) =>
      if required ∈ existing ++ mp then (true, .valid)
      else (false, .missingPrerequisite)

/-- Rejection reasons of `validate_actor_permissions`, one per `return False`
site. -/
inductive PermReason
  | ok | unknownAction | onlySuppliersRegister | batchMissing | unknownPrevActor
  | wrongRole | ownershipViolation | shippedMissing | wrongReceiver
  | wrongFromSupplier | deliveredMissing | wrongRetailReceiver | wrongFromDistributor
deriving DecidableEq, Repr

def actor_roles (action : String) : Option String :=
  if action == "registered" then some "supplier"
  else if action == "quality_checked" then some "supplier"
  else if action == "shipped" then some "supplier"
  else if action == "received" then some "distributor"
  else if action == "stored" then some "distributor"
  else if action == "delivered" then some "distributor"
  else if action == "received_retail" then some "retailer"
  else if action == "sold" then some "retailer"
  else none

def listStartsWith : List Char → List Char → Bool
  | _, [] => true
  | [], _ :: _ => false
  | c :: cs, p :: ps => c == p && listStartsWith cs ps

/-- Python `s.lower().startswith(p)` (the identities compared are ASCII, for
which `Char.toLower` agrees with `str.lower`). -/
def startsWithCI (s p : String) : Bool :=
  listStartsWith (s.data.map Char.toLower) p.data

def group_actions (role : String) : List String :=
  if role == "supplier" then ["registered", "quality_checked", "shipped"]
  else if role == "distributor" then ["received", "stored", "delivered"]
  else if role == "retailer" then ["received_retail", "sold"]
  else []

/-- Python `dict.get(k)` on a metadata mapping. -/
def metaGet (md : Metadata) (k : String) : Option String :=
  (md.find? fun p => p.1 == k).map fun p => p.2

/-- Python truthiness of an optional string (`if shipped_to and ...`,
`if current_from and ...`): absent and empty are both falsy. -/
def truthyStr : Option String → Bool
  | some v => !(v == "")
  | none => false

/-- Step 4 of `validate_actor_permissions`: classify the owner of the batch
from the identity of the last actor. -/
def owner_role_of (last_actor : String) : Option String :=
  if startsWithCI last_actor "supplier" then some "supplier"
  else if startsWithCI last_actor "distributor" then some "distributor"
  else if startsWithCI last_actor "retailer" then some "retailer"
  else none

/-- Step 7 of `validate_actor_permissions` (`SHIPPED -> RECEIVED`): the
receiver must be the shipment's `metadata.to` when that is truthy, and the
submitted `metadata.from` (read from `current_metadata`), when truthy, must be
the actor of the shipment. -/
def received_check (current_md : Metadata) (actor : String) (shipped : Tx) :
    Bool × PermReason :=
  let shipped_to := metaGet shipped.metadata "to"
  let current_from := metaGet current_md "from"
  if truthyStr shipped_to ∧ shipped_to ≠ some actor then
    (false, .wrongReceiver)
  else if truthyStr current_from ∧ current_from ≠ some shipped.actor then
    (false, .wrongFromSupplier)
  else (true, .ok)

/-- Step 8 of `validate_actor_permissions` (`DELIVERED -> RECEIVED_RETAIL`),
the retail analogue of `received_check`. -/
def retail_check (current_md : Metadata) (actor : String) (delivered : Tx) :
    Bool × PermReason :=
  let delivered_to := metaGet delivered.metadata "to"
  let current_from := metaGet current_md "from"
  if truthyStr delivered_to ∧ delivered_to ≠ some actor then
    (false, .wrongRetailReceiver)
  else if truthyStr current_from ∧ current_from ≠ some delivered.actor then
    (false, .wrongFromDistributor)
  else (true, .ok)

/-- `Blockchain.validate_actor_permissions`. Reads `self.current_metadata`
(the field set by `add_transaction` just before this is called). -/
def validate_actor_permissions (s : BCState) (batch_id action actor : String) :
    Bool × PermReason :=
  let history := (get_history s batch_id).map fun e => e.tx
  match actor_roles action with
  | none => (false, .unknownAction)
  | some expected_role =>
    if action == "registered" then
      if startsWithCI actor "supplier" then (true, .ok)
      else (false, .onlySuppliersRegister)
    else
      match history.getLast? with
      | none => (false, .batchMissing)
      | some lastTx =>
        match owner_role_of lastTx.actor with
        | none => (false, .unknownPrevActor)
        | some owner =>
          if startsWithCI actor expected_role then
            if action ∈ group_actions owner ∧ actor ≠ lastTx.actor then
              (false, .ownershipViolation)
            else if action == "received" then
              match history.find? fun tx => tx.action == "shipped" with
              | none => (false, .shippedMissing)
              | some shipped => received_check s.current_metadata actor shipped
            else if action == "received_retail" then
              match history.find? fun tx => tx.action == "delivered" with
              | none => (false, .deliveredMissing)
              | some delivered => retail_check s.current_metadata actor delivered
            else (true, .ok)
          else (false, .wrongRole)

/-! ## Mining, mempool sync, block acceptance, chain validation -/

/-- The concatenated mempool key `f"{batch_id}_{action}_{timestamp}"`, with a
missing timestamp read as `""` (Python dict get with default). -/
def txKeyStr (tx : Tx) : String :=
  tx.batch_id ++ "_" ++ tx.action ++ "_" ++ tx.timestamp.getD ""

/-- The pre-mine / block-acceptance duplicate test: some on-chain transaction
of the same batch has the same `action` and the same `timestamp`. -/
def txDupInChain (s : BCState) (tx : Tx) : Bool :=
  (get_history s tx.batch_id).any fun h =>
    h.tx.action == tx.action && h.tx.timestamp == tx.timestamp

/-- Python `s.startswith(p)` on plain strings (structural, so the kernel can
evaluate it). -/
def strStartsWith (s p : String) : Bool := listStartsWith s.data p.data

/-- `Blockchain.proof_of_work`: try nonces upward until the hash has the
difficulty prefix `"0" * difficulty`. The Python loop runs unboundedly; the
model carries fuel and returns `none` when the loop has not yet terminated
within it. -/
def powSearch (difficulty : Nat) (hashAt : Nat → String) : Nat → Nat → Option (Nat × String)
  | 0, _ => none
  | fuel + 1, nonce =>
    let h := hashAt nonce
    if strStartsWith h (String.mk (List.replicate difficulty '0')) then some (nonce, h)
    else powSearch difficulty hashAt fuel (nonce + 1)

/-- `Blockchain.mine_block`: re-filter the mempool against the chain, build
the candidate block on the current tip, run proof of work, append, clear the
mempool. `none` means the code mined nothing (empty or all-duplicate mempool;
in the model also unexhausted proof-of-work fuel); the state is unchanged in
that case. An empty chain would crash the source on `self.chain[-1]`;
reachable states always hold at least the genesis block. -/
def mine_block (s : BCState) (now : String) (fuel : Nat) : Option (Block × BCState) :=
  if s.mempool.isEmpty then none
  else
    let valid_mempool := s.mempool.filter fun tx => !(txDupInChain s tx)
    if valid_mempool.isEmpty then none
    else
      match s.chain.getLast? with
      | none => none
      | some last =>
        match powSearch s.difficulty
            (fun n => hashOfData (last.index + 1) now valid_mempool last.hash n) fuel 0 with
        | none => none
        | some (nonce, h) =>
          let blk : Block := { index := last.index + 1, timestamp := now,
                               transactions := valid_mempool,
                               previous_hash := last.hash, nonce := nonce, hash := h }
          some (blk, { s with chain := s.chain ++ [blk], mempool := [] })

/-- The transaction dict `add_transaction` builds: the client fields plus the
timestamp rule (signed: client timestamp verbatim; unsigned: client timestamp
or the server clock). -/
def txBuild (batch_id action actor : String) (metadata : Metadata)
    (signature public_key timestamp : Option String) (now : String) : Tx :=
  { batch_id := batch_id, action := action, actor := actor,
    metadata := metadata,
    timestamp := if signature.isSome then timestamp else some (timestamp.getD now),
    signature := signature, public_key := public_key }

/-- `Blockchain.add_transaction`. Returns the admitted transaction (or `none`
on rejection) together with the post-call state: a rejection after the order
check has already overwritten `current_metadata`, and admission into a full
mempool first auto-mines. -/
def add_transaction (vf : Tx → Bool) (s : BCState) (batch_id action actor : String)
    (metadata : Metadata) (signature public_key : Option String)
    (timestamp : Option String) (now : String) (fuel : Nat) : Option Tx × BCState :=
  if signature.isSome ∧ timestamp.isNone then (none, s)
  else
    let tx : Tx := txBuild batch_id action actor metadata signature public_key timestamp now
    if (validate_transaction_order s batch_id action actor).1 then
      let s1 : BCState := { s with current_metadata := metadata }
      if (validate_actor_permissions s1 batch_id action actor).1 then
        if s1.enable_crypto ∧ signature.isSome ∧ vf tx = false then (none, s1)
        else
          let s2 := if s1.mempool.length ≥ s1.max_mempool_size then
                      match mine_block s1 now fuel with
                      | some pr => pr.2
                      | none => s1
                    else s1
          (some tx, { s2 with mempool := s2.mempool ++ [tx] })
      else (none, s1)
    else (none, s)

/-- `Blockchain.sync_mempool`: merge a remote mempool, deduplicating by the
concatenated key against the keys seen so far (note the source adds the key
computed *before* a server-side timestamp is stamped), skipping signed
transactions the verifier rejects, stamping unsigned timestamp-less ones. -/
def sync_mempool (vf : Tx → Bool) (s : BCState) (remote : List Tx) (now : String) : BCState :=
  let step := fun (acc : List Tx × List String) (tx : Tx) =>
    let key := txKeyStr tx
    if key ∈ acc.2 then acc
    else if s.enable_crypto ∧ tx.signature.isSome ∧ vf tx = false then acc
    else
      let tx' := if tx.signature.isNone ∧ tx.timestamp.isNone then
                   { tx with timestamp := some now }
                 else tx
      (acc.1 ++ [tx'], acc.2 ++ [key])
  { s with mempool := (remote.foldl step (s.mempool, s.mempool.map txKeyStr)).1 }

/-- `Blockchain.accept_block`: reject on tip mismatch, on hash mismatch, or on
a transaction already on chain; otherwise append and prune the mempool by the
concatenated key. On rejection the state is unchanged. -/
def accept_block (s : BCState) (b : Block) : Bool × BCState :=
  match s.chain.getLast? with
  | none => (false, s)
  | some last =>
    if b.previous_hash ≠ last.hash then (false, s)
    else if b.compute_hash ≠ b.hash then (false, s)
    else if b.transactions.any (txDupInChain s) then (false, s)
    else
      let mined := b.transactions.map txKeyStr
      (true, { s with chain := s.chain ++ [b],
                      mempool := s.mempool.filter fun tx => !(mined.contains (txKeyStr tx)) })

/-- `Blockchain.is_chain_valid`: every non-genesis block links to its
predecessor and re-hashes to its stored hash. -/
def is_chain_valid : List Block → Bool
  | [] => true
  | [_] => true
  | prev :: curr :: rest =>
    curr.previous_hash == prev.hash && curr.compute_hash == curr.hash
      && is_chain_valid (curr :: rest)

/-- The chain-replacement guard of `sync_with_network` (and of
`request_chain_from_peers`): adopt a remote chain only when it is valid and
either the local chain is invalid or the remote one is strictly longer. -/
def should_replace (localChain remote : List Block) : Bool :=
  (!(is_chain_valid localChain) && is_chain_valid remote)
    || (is_chain_valid localChain && is_chain_valid remote
        && decide (remote.length > localChain.length))

/-- The two-stage validator exactly as `add_transaction` invokes it on
admission: the order check against the untouched state, then (only on order
success) `current_metadata` is overwritten with the submitted metadata and the
permission check runs. Returns the verdict and the post-call state. -/
inductive AdmitReason
  | order (r : OrderReason)
  | perms (r : PermReason)
deriving DecidableEq, Repr

def admission_validate (s : BCState) (batch_id action actor : String)
    (metadata : Metadata) : (Bool × AdmitReason) × BCState :=
  match validate_transaction_order s batch_id action actor with
  | (false, r) => ((false, .order r), s)
  | (true, _) =>
    let s1 : BCState := { s with current_metadata := metadata }
    let p := validate_actor_permissions s1 batch_id action actor
    ((p.1, .perms p.2), s1)

/-! ## Leader election (`election.py`) -/

def MASTER_PRIORITY : List String := ["blockchain1", "blockchain2", "blockchain3"]

structure NodeScore where
  node : String
  chain_length : Nat
  priority : Nat
deriving DecidableEq, Repr

/-- `election.detect_master`. The status poll of each non-local priority node
is abstracted as `status : String → Option Nat` (`some len` = HTTP 200 with
that chain length, `none` = unreachable or non-200). The local row is always
alive. `sorted(key=(-chain_length, priority))[0]` is modelled as the stable
fold for the lexicographic minimum; on the empty pool the source returns
`None`. -/
def detect_master (local_hostname : String) (current_chain_length : Option Nat)
    (status : String → Option Nat) : Option String :=
  let alive : List NodeScore := MASTER_PRIORITY.enum.filterMap fun p =>
    if p.2 == local_hostname then
      some { node := p.2, chain_length := current_chain_length.getD 0, priority := p.1 }
    else
      match status p.2 with
      | some len => some { node := p.2, chain_length := len, priority := p.1 }
      | none => none
  match alive with
  | [] => none
  | x :: xs =>
    some ((xs.foldl (fun best y =>
      if y.chain_length > best.chain_length
          ∨ (y.chain_length = best.chain_length ∧ y.priority < best.priority)
      then y else best) x).node)

/-! ## The locking structure (claim C9)

`blockchain.py` line 11 creates one module-level `threading.Lock`, used by
`mine_block` (line 449) and `sync_mempool` (line 507). `blockchain_service.py`
line 18 creates a *different* module-level `threading.Lock`, used by
`sync_with_network` (line 54), the `receive-block` route (line 389) and the
`reload` route (line 536). `Blockchain.add_transaction`, its service route,
and `Blockchain.replace_chain`/`accept_block` themselves acquire no lock. The
static lock-acquisition map is embedded so lock-identity claims can be
settled. -/

inductive LockId | blockchainModule | serviceModule
deriving DecidableEq, Repr

inductive MutOp
  | addTransactionOp | mineBlockOp | syncMempoolOp | replaceChainOp
  | receiveBlockOp | syncWithNetworkOp | reloadOp
deriving DecidableEq, Repr

def lockHeld : MutOp → Option LockId
  | .addTransactionOp => none
  | .mineBlockOp => some .blockchainModule
  | .syncMempoolOp => some .blockchainModule
  | .replaceChainOp => none
  | .receiveBlockOp => some .serviceModule
  | .syncWithNetworkOp => some .serviceModule
  | .reloadOp => some .serviceModule

/-! ## The replica state machine -/

/-- One state transition of a replica, with arbitrary (network-supplied)
inputs. `add` covers `add_transaction` including its rejection paths (a
rejection after the order check still overwrites `current_metadata`);
`mine` fires when `mine_block` produced a block; `accept` fires when
`accept_block` accepted (both leave the state unchanged otherwise);
`syncmp` is `sync_mempool` on a remote mempool; `adopt` is the chain
replacement performed by `sync_with_network` / `request_chain_from_peers`,
whose every call site guards `replace_chain` with `should_replace`. -/
inductive Step (vf : Tx → Bool) : BCState → BCState → Prop
  | add (s : BCState) (batch_id action actor : String) (metadata : Metadata)
      (signature public_key timestamp : Option String) (now : String) (fuel : Nat) :
      Step vf s (add_transaction vf s batch_id action actor metadata signature
        public_key timestamp now fuel).2
  | mine (s : BCState) (now : String) (fuel : Nat) (blk : Block) (s' : BCState)
      (h : mine_block s now fuel = some (blk, s')) : Step vf s s'
  | accept (s : BCState) (b : Block) (h : (accept_block s b).1 = true) :
      Step vf s (accept_block s b).2
  | syncmp (s : BCState) (remote : List Tx) (now : String) :
      Step vf s (sync_mempool vf s remote now)
  | adopt (s : BCState) (c : List Block) (h : should_replace s.chain c = true) :
      Step vf s { s with chain := c }

/-- States reachable from a freshly initialised replica by any sequence of
operations (any configuration: difficulty, crypto flag, mempool bound,
genesis timestamp). -/
inductive Reachable (vf : Tx → Bool) : BCState → Prop
  | init (difficulty : Nat) (enable_crypto : Bool) (max_mempool_size : Nat) (g : String) :
      Reachable vf (initState difficulty enable_crypto max_mempool_size g)
  | step (s s' : BCState) (hs : Reachable vf s) (hstep : Step vf s s') : Reachable vf s'

/-- The purely local leader operations: admission and mining only. -/
inductive StepL (vf : Tx → Bool) : BCState → BCState → Prop
  | add (s : BCState) (batch_id action actor : String) (metadata : Metadata)
      (signature public_key timestamp : Option String) (now : String) (fuel : Nat) :
      StepL vf s (add_transaction vf s batch_id action actor metadata signature
        public_key timestamp now fuel).2
  | mine (s : BCState) (now : String) (fuel : Nat) (blk : Block) (s' : BCState)
      (h : mine_block s now fuel = some (blk, s')) : StepL vf s s'

/-- States reachable using only the local leader operations `add_transaction`
and `mine_block`. -/
inductive ReachableL (vf : Tx → Bool) : BCState → Prop
  | init (difficulty : Nat) (enable_crypto : Bool) (max_mempool_size : Nat) (g : String) :
      ReachableL vf (initState difficulty enable_crypto max_mempool_size g)
  | step (s s' : BCState) (hs : ReachableL vf s) (hstep : StepL vf s s') : ReachableL vf s'

/-- The canonical eight-step workflow. -/
def canonical8 : List String :=
  ["registered", "quality_checked", "shipped", "received", "stored",
   "delivered", "received_retail", "sold"]

/-- The action list `l` is a (possibly complete) leading segment of the
canonical eight-step workflow. -/
def ChainSeqOK (l : List String) : Prop := ∃ k, k < 9 ∧ l = canonical8.take k

instance decChainSeqOK : DecidablePred ChainSeqOK := fun l =>
  decidable_of_iff (∃ k ∈ List.range 9, l = canonical8.take k) (by simp [ChainSeqOK, List.mem_range])

/-- The union of the chain transactions (in chain order) and the mempool. -/
def allTxs (s : BCState) : List Tx :=
  (s.chain.flatMap fun blk => blk.transactions) ++ s.mempool

/-- The composite key of the specification: `(batch_id, action, timestamp)`. -/
def txCompositeKey (tx : Tx) : String × String × Option String :=
  (tx.batch_id, tx.action, tx.timestamp)

/-! ## Concrete replicas, blocks and transactions used in the witnesses and
counterexamples. Hash literals are the SHA-256 hex digests of the canonical
JSON shown in the comments; the kernel re-derives each one from the SHA-256
of the model when it checks `compute_hash`. -/

/-- A concrete stand-in for `verify_transaction`; the concrete runs below only
involve unsigned transactions, for which the code never invokes the verifier. -/
def vf0 : Tx → Bool := fun _ => true

def g0 : String := "2025-01-01T00:00:00"

/-- A replica with the canonical difficulty 2 and crypto enabled. -/
def s0 : BCState := initState 2 true 1000 g0

/-- sha256 of
`{"index": 0, "nonce": 0, "previous_hash": "0", "timestamp": "2025-01-01T00:00:00", "transactions": []}`. -/
def genesisHash0 : String :=
  "7f0c271fb4abfebe64d68e28059e96e36c01266996afa118ff4224608bb08ead"

def txSoldB : Tx :=
  { batch_id := "B2", action := "sold", actor := "Retailer_Z", metadata := [],
    timestamp := some "2025-01-03T00:00:01" }

/-- A correctly hashed block on top of the genesis block whose only
transaction is a bare `sold` — no workflow validation happens on block
acceptance, so `accept_block` takes it. Its hash begins with `5`, not with
the difficulty prefix `00`. -/
def blockA : Block :=
  { index := 1, timestamp := "2025-01-03T00:00:00", transactions := [txSoldB],
    previous_hash := genesisHash0, nonce := 0,
    hash := "50f0c1da824781e6569c94fdc77e63e2d0e17c2eebab0a67706df04807f873a6" }

/-- The state after `accept_block` admits `blockA` into the fresh replica. -/
def sA : BCState := (accept_block s0 blockA).2

/-- Reachable via `accept_block` then `sync_mempool` of the very transaction
`blockA` already mined: the chain and the mempool then share the composite key
of `txSoldB`. -/
def sD : BCState := sync_mempool vf0 sA [txSoldB] "2025-01-06T00:00:00"

/-- A pending transaction whose concatenated key collides with `txK` below
although the composite keys differ. -/
def txColl : Tx :=
  { batch_id := "B_registered", action := "x", actor := "NodeN", metadata := [],
    timestamp := some "t" }

def txK : Tx :=
  { batch_id := "B", action := "registered", actor := "Supplier_A", metadata := [],
    timestamp := some "x_t" }

/-- A correctly hashed block on the genesis tip containing `txK`; its
concatenated key `B_registered_x_t` equals the one of `txColl`. sha256 of the
canonical JSON with `previous_hash` `genesisHash0`. -/
def blockK : Block :=
  { index := 1, timestamp := "2025-01-02T00:00:00", transactions := [txK],
    previous_hash := genesisHash0, nonce := 0,
    hash := "d504c197f377d4aa770cf0d00ebdbdc7a4c0b6244fada5e29b52845435d5bb25" }

/-- A replica whose mempool holds `txColl`, about to receive `blockK`. -/
def sK : BCState :=
  { chain := [genesisBlock g0], mempool := [txColl], difficulty := 2,
    enable_crypto := true, max_mempool_size := 1000, current_metadata := [] }

/-- A shipment `Supplier_A → Distributor_B` already on chain (claim C5 ranges
over every chain, so the block hashes are arbitrary: the validator never reads
them). -/
def txShip5 : Tx :=
  { batch_id := "B5", action := "shipped", actor := "Supplier_A",
    metadata := [("to", "Distributor_B")], timestamp := some "T5" }

def block5 : Block :=
  { index := 1, timestamp := "2025-01-04T00:00:00", transactions := [txShip5],
    previous_hash := "p", nonce := 0, hash := "h" }

/-- Replica with the shipment on chain and a `received` submission carrying no
`metadata.from` at all. -/
def sC5 : BCState :=
  { chain := [genesisBlock g0, block5], mempool := [], difficulty := 2,
    enable_crypto := true, max_mempool_size := 1000, current_metadata := [] }

/-- Same chain, but the receive form names the shipping supplier. -/
def sC5w : BCState := { sC5 with current_metadata := [("from", "Supplier_A")] }

/-- A replica carrying metadata retained from an earlier submission. -/
def sC8a : BCState :=
  { chain := [genesisBlock g0], mempool := [], difficulty := 2,
    enable_crypto := true, max_mempool_size := 1000,
    current_metadata := [("from", "OLD")] }

/-- Same chain and mempool, different crypto flag and retained metadata. -/
def sC8b : BCState := { sC8a with enable_crypto := false, current_metadata := [] }

/-- A signed transaction whose signature is an arbitrary (unverifiable)
string. -/
def txSig : Tx :=
  { batch_id := "B7", action := "registered", actor := "Supplier_A", metadata := [],
    timestamp := some "T7", signature := some "c2ln", public_key := some "cGs" }

def blockSig : Block :=
  { index := 1, timestamp := "2025-01-05T00:00:00", transactions := [txSig],
    previous_hash := "p", nonce := 0, hash := "h" }

def sC10 : BCState :=
  { chain := [genesisBlock g0, blockSig], mempool := [], difficulty := 2,
    enable_crypto := true, max_mempool_size := 1000, current_metadata := [] }

/-- The history entry `get_history sC10 "B7"` produces for `txSig`. -/
def e10 : HistEntry :=
  { tx := txSig, block_timestamp := "2025-01-05T00:00:00",
    signature_valid := some true, has_signature := true }

/-- The predecessor table as the specification states it (the same table the
`strict_sequence` dict encodes): `none` for `registered`, otherwise the
preceding workflow verb. Stated separately so the characterisation theorem
compares the code path against the spec table. -/
def required_predecessor (a : String) : Option String :=
  if a == "quality_checked" then some "registered"
  else if a == "shipped" then some "quality_checked"
  else if a == "received" then some "shipped"
  else if a == "stored" then some "received"
  else if a == "delivered" then some "stored"
  else if a == "received_retail" then some "delivered"
  else if a == "sold" then some "received_retail"
  else none

/-- A difficulty-0 replica (difficulty is a constructor/CLI parameter), on
which proof of work succeeds at nonce 0: used to run `add_transaction` and
`mine_block` concretely. -/
def s0z : BCState := initState 0 true 1000 g0

def sZ1 : BCState :=
  (add_transaction vf0 s0z "B1" "registered" "Supplier_A" [] none none none "T1" 9).2

def sZ2 : BCState := ((mine_block sZ1 "T2" 9).getD (genesisBlock g0, sZ1)).2

def blkZ2 : Block := ((mine_block sZ1 "T2" 9).getD (genesisBlock g0, sZ1)).1

/-! # Theorems -/

/-! ## Helper lemmas on histories -/

/-- The transactions listed by `get_history` are exactly the chain's
transactions of the batch, in chain order; the reporting flags do not change
the list. -/
theorem get_history_map_tx (s : BCState) (batch_id : String) :
    (get_history s batch_id).map (fun e => e.tx)
      = s.chain.flatMap fun blk => blk.transactions.filter fun tx => tx.batch_id == batch_id := by
  unfold get_history
  rw [List.map_flatMap]
  apply List.flatMap_congr
  intro blk _
  rw [List.map_map]
  conv_rhs => rw [← List.map_id (blk.transactions.filter fun tx => tx.batch_id == batch_id)]
  apply List.map_congr_left
  intro tx _
  simp only [Function.comp_apply, id]
  split <;> rfl

/-- `existingActions` only reads the chain. -/
theorem existingActions_eq (s : BCState) (b : String) :
    existingActions s b
      = (s.chain.flatMap fun blk => blk.transactions.filter fun tx => tx.batch_id == b).map
          (fun tx => tx.action) := by
  unfold existingActions
  rw [← get_history_map_tx, List.map_map]
  rfl

/-! ## Claim C9 (locking) -/

/-- Claim C9: all chain-and-mempool mutating operations are serialized under
one single mutex. This is false: `mine_block` locks the blockchain-module
mutex while the sync daemon locks the distinct service-module mutex (and
`add_transaction` locks nothing), so no single lock covers them. -/
theorem c9_counterexample : ¬ ∃ l : LockId, ∀ op : MutOp, lockHeld op = some l := by
  rintro ⟨l, h⟩
  have h1 : some LockId.blockchainModule = some l := h .mineBlockOp
  have h2 : some LockId.serviceModule = some l := h .syncWithNetworkOp
  exact absurd (Option.some.inj (h1.trans h2.symm)) (by decide)

/-- Claim C9, amended: `mine_block` and `sync_mempool` run under the
blockchain-module lock; the sync/consensus daemon (`sync_with_network`, chain
adoption included) and block receipt run under the distinct service-module
lock; `add_transaction` runs under no lock. Chain adoption by the sync daemon
is therefore not serialized against block production. -/
theorem c9_two_locks :
    lockHeld .mineBlockOp = some .blockchainModule
    ∧ lockHeld .syncMempoolOp = some .blockchainModule
    ∧ lockHeld .syncWithNetworkOp = some .serviceModule
    ∧ lockHeld .receiveBlockOp = some .serviceModule
    ∧ lockHeld .addTransactionOp = none
    ∧ LockId.blockchainModule ≠ LockId.serviceModule := by
  refine ⟨rfl, rfl, rfl, rfl, rfl, by decide⟩

/-! ## Claim C7 (self-election) -/

/-- Claim C7, amended: a replica whose hostname is on the fixed priority list
elects itself leader when every status poll fails; a replica whose hostname is
not priority-listed (for example the default hostname `localhost`) gets no
leader at all in that situation — `detect_master` returns `none`. -/
theorem c7_self_election (local_hostname : String) (clen : Option Nat)
    (status : String → Option Nat) (hmem : local_hostname ∈ MASTER_PRIORITY)
    (hdown : ∀ n, status n = none) :
    detect_master local_hostname clen status = some local_hostname := by
  simp only [MASTER_PRIORITY, List.mem_cons, List.not_mem_nil, or_false] at hmem
  rcases hmem with h | h | h <;> subst h <;>
    simp [detect_master, MASTER_PRIORITY, List.enum, hdown]

/-- Witness for C7: `blockchain2` with every peer down elects itself. -/
theorem c7_witness :
    detect_master "blockchain2" (some 3) (fun _ => none) = some "blockchain2" :=
  c7_self_election "blockchain2" (some 3) (fun _ => none) (by decide) (fun _ => rfl)

/-- Claim C7 as stated is false for hostnames outside the priority list: with
the default hostname `localhost` and no reachable peer, `detect_master`
returns `none`, not the local hostname. -/
theorem c7_counterexample :
    detect_master "localhost" (some 3) (fun _ => none) ≠ some "localhost" := by decide

/-! ## Claim C10 (signature flags in `get_history`) -/

/-- Claim C10: with cryptography enabled, every history entry whose
transaction carries a `signature` field is reported `signature_valid = True`,
`has_signature = True` — the flags are constants of the branch, computed
without any verification (the verifier is not even an input of
`get_history`). -/
theorem c10_signature_flags (s : BCState) (batch_id : String) (e : HistEntry)
    (hmem : e ∈ get_history s batch_id) (hec : s.enable_crypto = true)
    (hsig : e.tx.signature.isSome = true) :
    e.signature_valid = some true ∧ e.has_signature = true := by
  unfold get_history at hmem
  rw [List.mem_flatMap] at hmem
  obtain ⟨blk, _, hin⟩ := hmem
  rw [List.mem_map] at hin
  obtain ⟨tx, _, htx⟩ := hin
  by_cases hc : s.enable_crypto ∧ tx.signature.isSome
  · rw [if_pos hc] at htx
    rw [← htx]
    exact ⟨rfl, rfl⟩
  · rw [if_neg hc] at htx
    have : e.tx = tx := by rw [← htx]
    rw [this] at hsig
    exact absurd ⟨hec, hsig⟩ hc

/-- Witness for C10 at the concrete signed transaction `txSig`. -/
theorem c10_witness : e10.signature_valid = some true ∧ e10.has_signature = true :=
  c10_signature_flags sC10 "B7" e10 (by decide) (by decide) (by decide)

/-! ## Claim C6 (block acceptance and mempool pruning) -/

/-- Acceptance conditions and frame of `accept_block` (helper shared by the
C6 theorem and the chain-integrity invariant). -/
theorem accept_block_spec (s : BCState) (b : Block) (last : Block)
    (hlast : s.chain.getLast? = some last) :
    ((accept_block s b).1 = true ↔
      (b.previous_hash = last.hash ∧ b.compute_hash = b.hash
        ∧ b.transactions.any (txDupInChain s) = false))
    ∧ ((accept_block s b).1 = true →
        (accept_block s b).2.chain = s.chain ++ [b]
        ∧ (accept_block s b).2.mempool
            = s.mempool.filter fun tx =>
                !((b.transactions.map txKeyStr).contains (txKeyStr tx))) := by
  unfold accept_block
  rw [hlast]
  by_cases h1 : b.previous_hash = last.hash
  · by_cases h2 : b.compute_hash = b.hash
    · by_cases h3 : b.transactions.any (txDupInChain s) = true
      · simp [h1, h2, h3]
      · rw [Bool.not_eq_true] at h3
        simp [h1, h2, h3]
    · simp [h1, h2]
  · simp [h1]

/-- Claim C6, amended: an incoming block is accepted exactly under the three
checks (tip linkage, recomputed hash, no transaction already on chain), and on
success the chain gains exactly that block while the mempool keeps exactly the
pending transactions whose *concatenated* key string
`batch_id + "_" + action + "_" + timestamp` does not occur among the
transactions of the block (the source prunes by this string, not by the composite triple:
distinct triples whose concatenations coincide are pruned too). -/
theorem c6_accept_frame (s : BCState) (b : Block) (last : Block)
    (hlast : s.chain.getLast? = some last) :
    ((accept_block s b).1 = true ↔
      (b.previous_hash = last.hash ∧ b.compute_hash = b.hash
        ∧ b.transactions.any (txDupInChain s) = false))
    ∧ ((accept_block s b).1 = true →
        (accept_block s b).2.chain = s.chain ++ [b]
        ∧ (accept_block s b).2.mempool
            = s.mempool.filter fun tx =>
                !((b.transactions.map txKeyStr).contains (txKeyStr tx))) :=
  accept_block_spec s b last hlast

/-- Claim C6 as stated is false: `accept_block` prunes by the concatenated
key string, so with `blockK` (batch `B`, action `registered`, timestamp
`x_t`) accepted into `sK`, the pending transaction (batch `B_registered`,
action `x`, timestamp `t`) is removed although its composite key
`(batch_id, action, timestamp)` appears nowhere in the block. -/
theorem c6_counterexample :
    (accept_block sK blockK).1 = true
    ∧ (accept_block sK blockK).2.mempool
        ≠ sK.mempool.filter fun tx =>
            !(blockK.transactions.any fun btx =>
                btx.batch_id == tx.batch_id && btx.action == tx.action
                  && btx.timestamp == tx.timestamp) := by
  constructor
  · decide
  · decide

/-- Witness for C6 at the concrete acceptance of `blockK` into `sK`. -/
theorem c6_witness :
    (accept_block sK blockK).2.chain = sK.chain ++ [blockK]
    ∧ (accept_block sK blockK).2.mempool
        = sK.mempool.filter fun tx =>
            !((blockK.transactions.map txKeyStr).contains (txKeyStr tx)) :=
  (c6_accept_frame sK blockK (genesisBlock g0) rfl).2 (by decide)

/-! ## Claim C3 (order validator characterisation) -/

/-- The `strict_sequence` dict agrees pointwise with membership in the eight
workflow verbs plus the predecessor table of the specification. -/
theorem strict_sequence_eq (a : String) :
    strict_sequence a
      = if a ∈ canonical8 then some (required_predecessor a) else none := by
  by_cases h : a ∈ canonical8
  · fin_cases h <;> decide
  · rw [if_neg h]
    simp only [canonical8, List.mem_cons, List.not_mem_nil, or_false, not_or] at h
    obtain ⟨n1, n2, n3, n4, n5, n6, n7, n8⟩ := h
    simp [strict_sequence, beq_iff_eq, n1, n2, n3, n4, n5, n6, n7, n8]

/-- Acceptance characterisation of the order validator (helper shared by the
C3 theorem and the workflow-order invariant). -/
theorem order_accepts_iff (s : BCState) (batch_id action actor : String) :
    (validate_transaction_order s batch_id action actor).1 = true ↔
      (action ∈ canonical8
        ∧ action ∉ existingActions s batch_id
        ∧ action ∉ mempoolActions s batch_id
        ∧ ∀ p, required_predecessor action = some p →
            p ∈ existingActions s batch_id ++ mempoolActions s batch_id) := by
  unfold validate_transaction_order
  rw [strict_sequence_eq]
  by_cases hex : action ∈ existingActions s batch_id
  · simp [hex]
  · by_cases hmp : action ∈ mempoolActions s batch_id
    · simp [hex, hmp]
    · by_cases hc : action ∈ canonical8
      · rw [if_pos hc]
        cases hp : required_predecessor action with
        | none => simp [hex, hmp, hc, hp]
        | some p =>
          by_cases hin : p ∈ existingActions s batch_id ++ mempoolActions s batch_id
          · simp [hex, hmp, hc, hp, hin]
            exact List.mem_append.mp hin
          · simp [hex, hmp, hc, hp, hin]
            rw [List.mem_append] at hin
            push_neg at hin
            exact hin
      · simp [hex, hmp, hc]

/-! ## Claim C5 (shipment pairing) -/

/-- For a `received` submission, `validate_actor_permissions` either rejects
outright or returns exactly the step-7 `received_check` on the first on-chain
`shipped` transaction. -/
theorem vap_received_cases (s : BCState) (batch_id actor : String) (sh : Tx)
    (hfind : ((get_history s batch_id).map fun e => e.tx).find?
        (fun tx => tx.action == "shipped") = some sh) :
    (validate_actor_permissions s batch_id "received" actor).1 = false
    ∨ validate_actor_permissions s batch_id "received" actor
        = received_check s.current_metadata actor sh := by
  unfold validate_actor_permissions
  simp only []
  split
  · rename_i h
    exact absurd h (by decide)
  · rename_i expected_role h
    have hd : actor_roles "received" = some "distributor" := by decide
    rw [h] at hd
    injection hd with hd
    split
    · rename_i h2
      exact absurd h2 (by decide)
    · split
      · exact Or.inl rfl
      · rename_i lastTx hgl
        split
        · exact Or.inl rfl
        · rename_i owner howner
          split
          · split
            · exact Or.inl rfl
            · split
              · split
                · exact Or.inl rfl
                · rename_i shipped heqf
                  rw [hfind] at heqf
                  injection heqf with heqf
                  rw [heqf]
                  exact Or.inr rfl
              · rename_i hra
                exact absurd rfl hra
          · exact Or.inl rfl

/-- For a `received_retail` submission, `validate_actor_permissions` either
rejects outright or returns exactly the step-8 `retail_check` on the first
on-chain `delivered` transaction. -/
theorem vap_retail_cases (s : BCState) (batch_id actor : String) (dl : Tx)
    (hfind : ((get_history s batch_id).map fun e => e.tx).find?
        (fun tx => tx.action == "delivered") = some dl) :
    (validate_actor_permissions s batch_id "received_retail" actor).1 = false
    ∨ validate_actor_permissions s batch_id "received_retail" actor
        = retail_check s.current_metadata actor dl := by
  unfold validate_actor_permissions
  simp only []
  split
  · rename_i h
    exact absurd h (by decide)
  · rename_i expected_role h
    have hd : actor_roles "received_retail" = some "retailer" := by decide
    rw [h] at hd
    injection hd with hd
    split
    · rename_i h2
      exact absurd h2 (by decide)
    · split
      · exact Or.inl rfl
      · rename_i lastTx hgl
        split
        · exact Or.inl rfl
        · rename_i owner howner
          split
          · split
            · exact Or.inl rfl
            · split
              · rename_i hrr
                exact absurd hrr (by decide)
              · split
                · split
                  · exact Or.inl rfl
                  · rename_i delivered heqf
                    rw [hfind] at heqf
                    injection heqf with heqf
                    rw [heqf]
                    exact Or.inr rfl
                · rename_i hrr
                  exact absurd rfl hrr
          · exact Or.inl rfl

/-- The step-7 check accepts only matching pairings and rejects any violated
equality (with `metadata.from` read only when truthy, `metadata.to` only when
truthy). -/
theorem received_check_pairing (md : Metadata) (actor : String) (sh : Tx) :
    ((received_check md actor sh).1 = true →
        (truthyStr (metaGet md "from") = true → metaGet md "from" = some sh.actor)
        ∧ (truthyStr (metaGet sh.metadata "to") = true →
            metaGet sh.metadata "to" = some actor))
    ∧ (truthyStr (metaGet md "from") = true → metaGet md "from" ≠ some sh.actor →
        (received_check md actor sh).1 = false)
    ∧ (truthyStr (metaGet sh.metadata "to") = true → metaGet sh.metadata "to" ≠ some actor →
        (received_check md actor sh).1 = false) := by
  unfold received_check
  by_cases h1 : truthyStr (metaGet sh.metadata "to") ∧ metaGet sh.metadata "to" ≠ some actor
  · rw [if_pos h1]
    refine ⟨fun hacc => absurd hacc (by simp), fun _ _ => rfl, fun _ _ => rfl⟩
  · rw [if_neg h1]
    by_cases h2 : truthyStr (metaGet md "from") ∧ metaGet md "from" ≠ some sh.actor
    · rw [if_pos h2]
      refine ⟨fun hacc => absurd hacc (by simp), fun _ _ => rfl, fun _ _ => rfl⟩
    · rw [if_neg h2]
      refine ⟨fun _ => ⟨?_, ?_⟩, ?_, ?_⟩
      · intro ht
        by_contra hne
        exact h2 ⟨ht, hne⟩
      · intro ht
        by_contra hne
        exact h1 ⟨ht, hne⟩
      · intro ht hne
        exact absurd ⟨ht, hne⟩ h2
      · intro ht hne
        exact absurd ⟨ht, hne⟩ h1

/-- The retail analogue of `received_check_pairing`. -/
theorem retail_check_pairing (md : Metadata) (actor : String) (dl : Tx) :
    ((retail_check md actor dl).1 = true →
        (truthyStr (metaGet md "from") = true → metaGet md "from" = some dl.actor)
        ∧ (truthyStr (metaGet dl.metadata "to") = true →
            metaGet dl.metadata "to" = some actor))
    ∧ (truthyStr (metaGet md "from") = true → metaGet md "from" ≠ some dl.actor →
        (retail_check md actor dl).1 = false)
    ∧ (truthyStr (metaGet dl.metadata "to") = true → metaGet dl.metadata "to" ≠ some actor →
        (retail_check md actor dl).1 = false) := by
  unfold retail_check
  by_cases h1 : truthyStr (metaGet dl.metadata "to") ∧ metaGet dl.metadata "to" ≠ some actor
  · rw [if_pos h1]
    refine ⟨fun hacc => absurd hacc (by simp), fun _ _ => rfl, fun _ _ => rfl⟩
  · rw [if_neg h1]
    by_cases h2 : truthyStr (metaGet md "from") ∧ metaGet md "from" ≠ some dl.actor
    · rw [if_pos h2]
      refine ⟨fun hacc => absurd hacc (by simp), fun _ _ => rfl, fun _ _ => rfl⟩
    · rw [if_neg h2]
      refine ⟨fun _ => ⟨?_, ?_⟩, ?_, ?_⟩
      · intro ht
        by_contra hne
        exact h2 ⟨ht, hne⟩
      · intro ht
        by_contra hne
        exact h1 ⟨ht, hne⟩
      · intro ht hne
        exact absurd ⟨ht, hne⟩ h2
      · intro ht hne
        exact absurd ⟨ht, hne⟩ h1

/-- Claim C5, amended: for every chain containing a `shipped` transaction for
a batch, an accepted `received` submission has its `metadata.from` — *when
present and non-empty* (Python truthiness; an absent or empty `from` is not
checked at all) — equal to the shipping actor, and the shipment's
`metadata.to`, when present and non-empty, equal to the receiving actor; a
submission violating either equality is rejected. The analogous pairing holds
for `received_retail` against the first `delivered` transaction. -/
theorem c5_shipment_pairing :
    (∀ (s : BCState) (batch_id actor : String) (sh : Tx),
      ((get_history s batch_id).map fun e => e.tx).find?
          (fun tx => tx.action == "shipped") = some sh →
      (((validate_actor_permissions s batch_id "received" actor).1 = true →
          (truthyStr (metaGet s.current_metadata "from") = true →
            metaGet s.current_metadata "from" = some sh.actor)
          ∧ (truthyStr (metaGet sh.metadata "to") = true →
            metaGet sh.metadata "to" = some actor))
        ∧ (truthyStr (metaGet s.current_metadata "from") = true →
            metaGet s.current_metadata "from" ≠ some sh.actor →
            (validate_actor_permissions s batch_id "received" actor).1 = false)
        ∧ (truthyStr (metaGet sh.metadata "to") = true →
            metaGet sh.metadata "to" ≠ some actor →
            (validate_actor_permissions s batch_id "received" actor).1 = false)))
    ∧ (∀ (s : BCState) (batch_id actor : String) (dl : Tx),
      ((get_history s batch_id).map fun e => e.tx).find?
          (fun tx => tx.action == "delivered") = some dl →
      (((validate_actor_permissions s batch_id "received_retail" actor).1 = true →
          (truthyStr (metaGet s.current_metadata "from") = true →
            metaGet s.current_metadata "from" = some dl.actor)
          ∧ (truthyStr (metaGet dl.metadata "to") = true →
            metaGet dl.metadata "to" = some actor))
        ∧ (truthyStr (metaGet s.current_metadata "from") = true →
            metaGet s.current_metadata "from" ≠ some dl.actor →
            (validate_actor_permissions s batch_id "received_retail" actor).1 = false)
        ∧ (truthyStr (metaGet dl.metadata "to") = true →
            metaGet dl.metadata "to" ≠ some actor →
            (validate_actor_permissions s batch_id "received_retail" actor).1 = false))) := by
  constructor
  · intro s batch_id actor sh hfind
    rcases vap_received_cases s batch_id actor sh hfind with hf | heq
    · refine ⟨fun hacc => ?_, fun _ _ => hf, fun _ _ => hf⟩
      rw [hf] at hacc
      cases hacc
    · rw [heq]
      exact received_check_pairing s.current_metadata actor sh
  · intro s batch_id actor dl hfind
    rcases vap_retail_cases s batch_id actor dl hfind with hf | heq
    · refine ⟨fun hacc => ?_, fun _ _ => hf, fun _ _ => hf⟩
      rw [hf] at hacc
      cases hacc
    · rw [heq]
      exact retail_check_pairing s.current_metadata actor dl

/-- Claim C5 as stated is false: the chain of `sC5` contains the shipment
`txShip5` by `Supplier_A`, the submission carries *no* `metadata.from` at all,
and the `received` validation nevertheless accepts — the equality
`metadata.from = shipping actor` that the claim says is required does not
hold. -/
theorem c5_counterexample :
    (validate_actor_permissions sC5 "B5" "received" "Distributor_B").1 = true
    ∧ metaGet sC5.current_metadata "from" ≠ some "Supplier_A"
    ∧ ((get_history sC5 "B5").map fun e => e.tx).find?
        (fun tx => tx.action == "shipped") = some txShip5
    ∧ txShip5.actor = "Supplier_A" := by
  refine ⟨by decide, by decide, by decide, rfl⟩

/-- Witness for C5 at the concrete accepted receive of `sC5w` (whose form
does name the shipping supplier). -/
theorem c5_witness :
    (truthyStr (metaGet sC5w.current_metadata "from") = true →
      metaGet sC5w.current_metadata "from" = some txShip5.actor)
    ∧ (truthyStr (metaGet txShip5.metadata "to") = true →
      metaGet txShip5.metadata "to" = some "Distributor_B") :=
  (c5_shipment_pairing.1 sC5w "B5" "Distributor_B" txShip5 (by decide)).1 (by decide)

/-! ## Claim C8 (validator determinism and its one mutation) -/

/-- The order check reads only the chain and the mempool. -/
theorem vto_congr (s₁ s₂ : BCState) (hc : s₁.chain = s₂.chain)
    (hm : s₁.mempool = s₂.mempool) (batch_id action actor : String) :
    validate_transaction_order s₁ batch_id action actor
      = validate_transaction_order s₂ batch_id action actor := by
  have he : existingActions s₁ batch_id = existingActions s₂ batch_id := by
    rw [existingActions_eq, existingActions_eq, hc]
  have hmp : mempoolActions s₁ batch_id = mempoolActions s₂ batch_id := by
    unfold mempoolActions
    rw [hm]
  unfold validate_transaction_order
  rw [he, hmp]

/-- The permission check reads only the chain and `current_metadata` (the
reporting flags attached by `get_history` cancel out). -/
theorem vap_congr (s₁ s₂ : BCState) (hc : s₁.chain = s₂.chain)
    (hcm : s₁.current_metadata = s₂.current_metadata) (batch_id action actor : String) :
    validate_actor_permissions s₁ batch_id action actor
      = validate_actor_permissions s₂ batch_id action actor := by
  have hh : (get_history s₁ batch_id).map (fun e => e.tx)
      = (get_history s₂ batch_id).map (fun e => e.tx) := by
    rw [get_history_map_tx, get_history_map_tx, hc]
  unfold validate_actor_permissions
  rw [hh, hcm]

/-- Claim C8, amended: two admission-time validation runs over identical
chains and mempools with identical arguments yield the same verdict whatever
the rest of the replica state is — in particular whatever `current_metadata`
was retained from earlier submissions, because the order check never reads it
and `add_transaction` overwrites it before the permission check runs. The
validation is however *not* mutation-free: when the order check passes it
overwrites the `current_metadata` field (and nothing else). -/
theorem c8_validator_determinism (s₁ s₂ : BCState) (batch_id action actor : String)
    (metadata : Metadata) (hc : s₁.chain = s₂.chain) (hm : s₁.mempool = s₂.mempool) :
    (admission_validate s₁ batch_id action actor metadata).1
      = (admission_validate s₂ batch_id action actor metadata).1
    ∧ ((admission_validate s₁ batch_id action actor metadata).2 = s₁
      ∨ (admission_validate s₁ batch_id action actor metadata).2
          = { s₁ with current_metadata := metadata }) := by
  have hv := vto_congr s₁ s₂ hc hm batch_id action actor
  unfold admission_validate
  rw [hv]
  cases hvto : validate_transaction_order s₂ batch_id action actor with
  | mk acc r =>
    cases acc
    · exact ⟨rfl, Or.inl rfl⟩
    · have hp := vap_congr { s₁ with current_metadata := metadata }
        { s₂ with current_metadata := metadata } (by simpa using hc) rfl
        batch_id action actor
      simp only [hp]
      exact ⟨trivial, Or.inr trivial⟩

/-- Claim C8 as stated is false in its no-mutation part: an admission-time
validation run on `sC8a` (a successful `registered` order check) leaves the
replica with its `current_metadata` overwritten — the post-state differs from
the pre-state. -/
theorem c8_counterexample :
    (admission_validate sC8a "B9" "registered" "Supplier_A" []).2 ≠ sC8a := by decide

/-- Witness for C8: `sC8a` and `sC8b` differ in retained metadata and in the
crypto flag but share chain and mempool; the verdicts coincide and the only
mutation is the `current_metadata` overwrite. -/
theorem c8_witness :
    (admission_validate sC8a "B9" "registered" "Supplier_A" []).1
      = (admission_validate sC8b "B9" "registered" "Supplier_A" []).1
    ∧ ((admission_validate sC8a "B9" "registered" "Supplier_A" []).2 = sC8a
      ∨ (admission_validate sC8a "B9" "registered" "Supplier_A" []).2
          = { sC8a with current_metadata := [] }) :=
  c8_validator_determinism sC8a sC8b "B9" "registered" "Supplier_A" [] rfl rfl

/-- Claim C3: `validate_transaction_order` accepts exactly when the action is
one of the eight workflow verbs, the action occurs neither among the batch
chain actions nor among its pending mempool actions, and its required
predecessor (none for `registered`) occurs among the chain actions followed by
the mempool actions. -/
theorem c3_order_characterisation (s : BCState) (batch_id action actor : String) :
    (validate_transaction_order s batch_id action actor).1 = true ↔
      (action ∈ canonical8
        ∧ action ∉ existingActions s batch_id
        ∧ action ∉ mempoolActions s batch_id
        ∧ ∀ p, required_predecessor action = some p →
            p ∈ existingActions s batch_id ++ mempoolActions s batch_id) :=
  order_accepts_iff s batch_id action actor

/-! ## Claim C2 (hash-chain integrity) -/

/-- A successful proof-of-work search returns the hash of the block at the
found nonce, and that hash carries the difficulty prefix. -/
theorem powSearch_spec (d : Nat) (f : Nat → String) :
    ∀ (fuel n nn : Nat) (h : String), powSearch d f fuel n = some (nn, h) →
      h = f nn ∧ strStartsWith h (String.mk (List.replicate d '0')) = true := by
  intro fuel
  induction fuel with
  | zero => intro n nn h hp; exact Option.noConfusion hp
  | succ fuel ih =>
    intro n nn h hp
    unfold powSearch at hp
    by_cases hs : strStartsWith (f n) (String.mk (List.replicate d '0')) = true
    · rw [if_pos hs] at hp
      injection hp with hp
      obtain ⟨h1, h2⟩ := Prod.mk.inj hp
      subst h1
      subst h2
      exact ⟨rfl, hs⟩
    · rw [if_neg hs] at hp
      exact ih (n + 1) nn h hp

/-- `is_chain_valid` as the adjacent-pair relation. -/
theorem is_chain_valid_iff_chain (c : List Block) :
    is_chain_valid c = true
      ↔ List.Chain' (fun a b => b.previous_hash = a.hash ∧ b.compute_hash = b.hash) c := by
  induction c with
  | nil => simp [is_chain_valid]
  | cons x xs ih =>
    cases xs with
    | nil => simp [is_chain_valid]
    | cons y ys =>
      rw [List.chain'_cons]
      unfold is_chain_valid
      rw [← ih]
      simp [Bool.and_eq_true, beq_iff_eq, and_assoc]

/-- Appending a correctly linked, correctly hashed block preserves chain
validity. -/
theorem is_chain_valid_append (c : List Block) (blk last : Block)
    (hv : is_chain_valid c = true) (hlast : c.getLast? = some last)
    (hprev : blk.previous_hash = last.hash) (hcomp : blk.compute_hash = blk.hash) :
    is_chain_valid (c ++ [blk]) = true := by
  rw [is_chain_valid_iff_chain] at hv ⊢
  apply List.Chain'.append hv (List.chain'_singleton blk)
  intro x hx y hy
  rw [hlast] at hx
  simp only [Option.mem_def, Option.some.injEq] at hx
  simp only [List.head?_cons, Option.mem_def, Option.some.injEq] at hy
  subst hx
  subst hy
  exact ⟨hprev, hcomp⟩

/-- The chain adoption guard only ever admits chains that `is_chain_valid`
accepts. -/
theorem should_replace_valid (l c : List Block) (h : should_replace l c = true) :
    is_chain_valid c = true := by
  unfold should_replace at h
  rcases Bool.or_eq_true _ _ |>.mp h with h1 | h2
  · exact (Bool.and_eq_true _ _ |>.mp h1).2
  · exact (Bool.and_eq_true _ _ |>.mp (Bool.and_eq_true _ _ |>.mp h2).1).2

/-- What a successful `mine_block` produces: the block sits on the previous
tip, carries its own recomputed hash with the difficulty prefix, contains the
re-filtered mempool, and the post-state is the appended chain with an empty
mempool. -/
theorem mine_block_spec (s : BCState) (now : String) (fuel : Nat) (blk : Block)
    (s' : BCState) (hm : mine_block s now fuel = some (blk, s')) :
    ∃ last, s.chain.getLast? = some last
      ∧ blk.previous_hash = last.hash
      ∧ blk.compute_hash = blk.hash
      ∧ strStartsWith blk.hash (String.mk (List.replicate s.difficulty '0')) = true
      ∧ blk.transactions = s.mempool.filter (fun tx => !(txDupInChain s tx))
      ∧ s' = { s with chain := s.chain ++ [blk], mempool := [] } := by
  unfold mine_block at hm
  split at hm
  · exact Option.noConfusion hm
  · simp only [] at hm
    split at hm
    · exact Option.noConfusion hm
    · split at hm
      · exact Option.noConfusion hm
      · rename_i last hgl
        split at hm
        · exact Option.noConfusion hm
        · rename_i nonce hh hpw
          injection hm with hm
          obtain ⟨hb, hs'⟩ := Prod.mk.inj hm
          obtain ⟨hph, hstart⟩ :=
            powSearch_spec s.difficulty _ fuel 0 nonce hh hpw
          refine ⟨last, hgl, ?_, ?_, ?_, ?_, ?_⟩
          · rw [← hb]
          · rw [← hb]
            exact hph.symm
          · rw [← hb]
            exact hstart
          · rw [← hb]
          · rw [← hs', ← hb]

/-- The possible outcomes of `add_transaction`: rejection before the order
check (state untouched), rejection after it (only `current_metadata`
overwritten), or admission — in which case the order check passed on the
pre-state and the built transaction is appended to the mempool of either the
metadata-overwritten state or (mempool full) the auto-mined state. -/
theorem add_transaction_spec (vf : Tx → Bool) (s : BCState) (batch_id action actor : String)
    (md : Metadata) (sg pk ts : Option String) (now : String) (fuel : Nat) :
    (add_transaction vf s batch_id action actor md sg pk ts now fuel).2 = s
    ∨ (add_transaction vf s batch_id action actor md sg pk ts now fuel).2
        = { s with current_metadata := md }
    ∨ ((validate_transaction_order s batch_id action actor).1 = true
        ∧ ∃ s₂ : BCState,
            (s₂ = { s with current_metadata := md }
              ∨ ∃ blk, mine_block { s with current_metadata := md } now fuel
                  = some (blk, s₂))
            ∧ (add_transaction vf s batch_id action actor md sg pk ts now fuel).2.chain
                = s₂.chain
            ∧ (add_transaction vf s batch_id action actor md sg pk ts now fuel).2.mempool
                = s₂.mempool ++ [txBuild batch_id action actor md sg pk ts now]) := by
  unfold add_transaction
  split
  · exact Or.inl rfl
  · simp only []
    split
    · rename_i h1
      split
      · split
        · exact Or.inr (Or.inl rfl)
        · refine Or.inr (Or.inr ⟨h1, ?_⟩)
          split
          · split
            · rename_i pr hmine
              exact ⟨pr.2, Or.inr ⟨pr.1, by rw [hmine]⟩, rfl, rfl⟩
            · exact ⟨{ s with current_metadata := md }, Or.inl rfl, rfl, rfl⟩
          · exact ⟨{ s with current_metadata := md }, Or.inl rfl, rfl, rfl⟩
      · exact Or.inr (Or.inl rfl)
    · exact Or.inl rfl

/-- Every reachable chain passes `is_chain_valid`. -/
theorem reachable_chain_valid (vf : Tx → Bool) (s : BCState) (hr : Reachable vf s) :
    is_chain_valid s.chain = true := by
  induction hr with
  | init difficulty enable_crypto max_mempool_size g => rfl
  | step s s' hs hstep ih =>
    cases hstep with
    | add batch_id action actor metadata signature public_key timestamp now fuel =>
      rcases add_transaction_spec vf s batch_id action actor metadata signature
          public_key timestamp now fuel with h | h | ⟨_, s₂, hs₂, hchain, _⟩
      · rw [h]
        exact ih
      · rw [h]
        exact ih
      · rw [hchain]
        rcases hs₂ with rfl | ⟨blk, hmine⟩
        · exact ih
        · obtain ⟨last, hlast, hprev, hcomp, _, _, hshape⟩ :=
            mine_block_spec _ now fuel blk s₂ hmine
          rw [hshape]
          exact is_chain_valid_append s.chain blk last ih hlast hprev hcomp
    | mine now fuel blk s₂ hmine =>
      obtain ⟨last, hlast, hprev, hcomp, _, _, hshape⟩ :=
        mine_block_spec s now fuel blk s' hmine
      rw [hshape]
      exact is_chain_valid_append s.chain blk last ih hlast hprev hcomp
    | accept b hacc =>
      cases hgl : s.chain.getLast? with
      | none =>
        unfold accept_block at hacc
        rw [hgl] at hacc
        cases hacc
      | some last =>
        obtain ⟨hcond, hframe⟩ := accept_block_spec s b last hgl
        obtain ⟨hprev, hcomp, _⟩ := hcond.mp hacc
        obtain ⟨hchain, _⟩ := hframe hacc
        rw [hchain]
        exact is_chain_valid_append s.chain b last ih hgl hprev hcomp
    | syncmp remote now => exact ih
    | adopt c hrep => exact should_replace_valid s.chain c hrep

/-- Claim C2, amended: in every reachable replica state, every non-genesis
block links to its predecessor and re-hashes to its stored hash. The third
conjunct of the claim — that every block hash begins with `difficulty` zero
nibbles — is *not* an invariant: neither `accept_block` nor the
`is_chain_valid` check guarding chain adoption inspects the difficulty
prefix, so it holds only for locally mined blocks. -/
theorem c2_chain_integrity (vf : Tx → Bool) (s : BCState) (hr : Reachable vf s)
    (i : Nat) (hi : i < s.chain.length) (hpos : 0 < i) :
    (s.chain.get ⟨i, hi⟩).previous_hash = (s.chain.get ⟨i - 1, by omega⟩).hash
    ∧ (s.chain.get ⟨i, hi⟩).compute_hash = (s.chain.get ⟨i, hi⟩).hash := by
  have hv := reachable_chain_valid vf s hr
  rw [is_chain_valid_iff_chain, List.chain'_iff_get] at hv
  have h := hv (i - 1) (by omega)
  have hidx : i - 1 + 1 = i := by omega
  simp only [hidx] at h
  exact ⟨h.1, h.2⟩

/-- `s0` reaches `sA` by accepting the correctly hashed block `blockA`. -/
theorem reachable_sA : Reachable vf0 sA :=
  Reachable.step s0 sA (Reachable.init 2 true 1000 g0)
    (Step.accept s0 blockA (by decide))

theorem sA_chain_len : 1 < sA.chain.length := by decide

/-- Claim C2 as stated is false: the reachable state `sA` (difficulty 2)
holds the accepted block `blockA` whose hash starts with `5`, not `00` —
block acceptance never checks the difficulty prefix. -/
theorem c2_counterexample :
    Reachable vf0 sA
    ∧ sA.difficulty = 2
    ∧ strStartsWith (sA.chain.get ⟨1, sA_chain_len⟩).hash
        (String.mk (List.replicate sA.difficulty '0')) = false := by
  refine ⟨reachable_sA, by decide, by decide⟩

/-- Witness for C2 at the reachable state `sA`, block index 1. -/
theorem c2_witness :
    (sA.chain.get ⟨1, sA_chain_len⟩).previous_hash
        = (sA.chain.get ⟨0, Nat.lt_of_le_of_lt (Nat.zero_le 1) sA_chain_len⟩).hash
    ∧ (sA.chain.get ⟨1, sA_chain_len⟩).compute_hash
        = (sA.chain.get ⟨1, sA_chain_len⟩).hash :=
  c2_chain_integrity vf0 sA reachable_sA 1 sA_chain_len (by omega)

/-! ## Claims C1 and C4 (workflow order and key uniqueness) -/

theorem canonical8_nodup : canonical8.Nodup := by decide

theorem chainseq_nodup (l : List String) (h : ChainSeqOK l) : l.Nodup := by
  obtain ⟨k, _, rfl⟩ := h
  exact (List.take_sublist k canonical8).nodup canonical8_nodup

/-- The combinatorial heart of the workflow invariant: appending an allowed
action (present predecessor, not yet present itself) to a leading segment of
the canonical workflow yields a leading segment again. -/
theorem chainseq_extend (l : List String) (a : String) (hl : ChainSeqOK l)
    (hca : a ∈ canonical8) (ha : a ∉ l)
    (hp : ∀ p, required_predecessor a = some p → p ∈ l) :
    ChainSeqOK (l ++ [a]) := by
  obtain ⟨k, hk, rfl⟩ := hl
  fin_cases hca <;>
    simp only [required_predecessor, Option.some.injEq, forall_eq'] at hp <;>
    (interval_cases k <;> revert hp ha <;> decide)

/-- Appending a block appends its batch transactions to the batch history. -/
theorem existingActions_append (s s' : BCState) (blk : Block)
    (h : s'.chain = s.chain ++ [blk]) (b : String) :
    existingActions s' b
      = existingActions s b
        ++ (blk.transactions.filter fun tx => tx.batch_id == b).map (fun tx => tx.action) := by
  rw [existingActions_eq, existingActions_eq, h, List.flatMap_append, List.map_append]
  simp

/-- In a state whose per-batch combined actions are duplicate-free, no
pending transaction is a chain duplicate, so the pre-mine re-filter keeps the
whole mempool. -/
theorem txDup_false (s : BCState) (tx : Tx)
    (hinv : ChainSeqOK (existingActions s tx.batch_id ++ mempoolActions s tx.batch_id))
    (hmem : tx ∈ s.mempool) : txDupInChain s tx = false := by
  by_contra hdup
  rw [Bool.not_eq_false, txDupInChain, List.any_eq_true] at hdup
  obtain ⟨e, he, hpred⟩ := hdup
  rw [Bool.and_eq_true, beq_iff_eq] at hpred
  have hex : tx.action ∈ existingActions s tx.batch_id := by
    rw [existingActions]
    rw [← hpred.1]
    exact List.mem_map_of_mem (fun e => e.tx.action) he
  have hmp : tx.action ∈ mempoolActions s tx.batch_id := by
    rw [mempoolActions]
    have hmemf : tx ∈ s.mempool.filter (fun tx' => tx'.batch_id == tx.batch_id) :=
      List.mem_filter.mpr ⟨hmem, by exact beq_self_eq_true tx.batch_id⟩
    exact List.mem_map_of_mem (fun tx => tx.action) hmemf
  have hnd := chainseq_nodup _ hinv
  rw [List.nodup_append] at hnd
  exact hnd.2.2 hex hmp

/-- Under the duplicate-freedom invariant, mining moves the batch actions
from the mempool to the chain without changing the combined sequence. -/
theorem mine_preserves_actions (s : BCState) (now : String) (fuel : Nat) (blk : Block)
    (s' : BCState) (hm : mine_block s now fuel = some (blk, s'))
    (hinv : ∀ b, ChainSeqOK (existingActions s b ++ mempoolActions s b)) (b : String) :
    existingActions s' b ++ mempoolActions s' b
      = existingActions s b ++ mempoolActions s b := by
  obtain ⟨last, _, _, _, _, htxs, hshape⟩ := mine_block_spec s now fuel blk s' hm
  have hmp' : mempoolActions s' b = [] := by
    rw [hshape, mempoolActions]
    rfl
  have hfilter : (blk.transactions.filter fun tx => tx.batch_id == b)
      = s.mempool.filter fun tx => tx.batch_id == b := by
    rw [htxs, List.filter_filter]
    apply List.filter_congr
    intro tx hmem
    by_cases hb : tx.batch_id == b
    · have hbq : tx.batch_id = b := by simpa using hb
      rw [txDup_false s tx (hbq ▸ hinv b) hmem]
      simp [hb]
    · simp [Bool.eq_false_iff.mpr hb]
  rw [hmp', existingActions_append s s' blk (by rw [hshape]) b, hfilter]
  rw [List.append_nil]
  rfl

/-- The per-batch combined chain-then-mempool action sequence of every state
reachable by `add_transaction` and `mine_block` is a leading segment of the
canonical workflow. -/
theorem reachableL_inv (vf : Tx → Bool) (s : BCState) (hr : ReachableL vf s) :
    ∀ b, ChainSeqOK (existingActions s b ++ mempoolActions s b) := by
  induction hr with
  | init difficulty enable_crypto max_mempool_size g =>
    intro b
    exact ⟨0, by omega, rfl⟩
  | step s s' hs hstep ih =>
    cases hstep with
    | add batch_id action actor metadata signature public_key timestamp now fuel =>
      rcases add_transaction_spec vf s batch_id action actor metadata signature
          public_key timestamp now fuel with h | h | ⟨hvto, s₂, hs₂, hchain, hmp⟩
      · rw [h]
        exact ih
      · rw [h]
        exact ih
      · intro b
        have hcomb : ∀ b, existingActions s₂ b ++ mempoolActions s₂ b
            = existingActions s b ++ mempoolActions s b := by
          rcases hs₂ with rfl | ⟨blk, hmine⟩
          · intro b
            rfl
          · exact mine_preserves_actions { s with current_metadata := metadata }
              now fuel blk s₂ hmine (fun b => ih b)
        have hex' : existingActions
            (add_transaction vf s batch_id action actor metadata signature
              public_key timestamp now fuel).2 b = existingActions s₂ b := by
          rw [existingActions_eq, existingActions_eq, hchain]
        have hmp' : mempoolActions
            (add_transaction vf s batch_id action actor metadata signature
              public_key timestamp now fuel).2 b
            = mempoolActions s₂ b
              ++ (if (txBuild batch_id action actor metadata signature public_key
                    timestamp now).batch_id == b
                  then [(txBuild batch_id action actor metadata signature public_key
                    timestamp now).action] else []) := by
          rw [mempoolActions, hmp, List.filter_append, List.map_append, mempoolActions]
          congr 1
          by_cases hb : (txBuild batch_id action actor metadata signature public_key
              timestamp now).batch_id == b
          · rw [if_pos hb]
            simp [List.filter_cons, hb]
          · rw [if_neg hb]
            simp [List.filter_cons, Bool.eq_false_iff.mpr hb]
      -- now split on whether the new transaction belongs to batch b
        rw [order_accepts_iff] at hvto
        obtain ⟨hca, hnex, hnmp, hpred⟩ := hvto
        by_cases hb : (txBuild batch_id action actor metadata signature public_key
            timestamp now).batch_id == b
        · have hbq : batch_id = b := by simpa [txBuild] using hb
          subst hbq
          rw [hex', hmp', if_pos hb, ← List.append_assoc, hcomb]
          apply chainseq_extend _ _ (ih batch_id) hca
          · rw [List.mem_append]
            rintro (hc | hc)
            · exact hnex hc
            · exact hnmp hc
          · intro p hpp
            rw [List.mem_append]
            rcases List.mem_append.mp (hpred p hpp) with hc | hc
            · exact Or.inl hc
            · exact Or.inr hc
        · rw [hex', hmp', if_neg hb, List.append_nil, hcomb]
          exact ih b
    | mine now fuel blk s₂ hmine =>
      intro b
      rw [mine_preserves_actions s now fuel blk s' hmine ih b]
      exact ih b

/-- A leading segment of a leading segment. -/
theorem chainseq_left (l₁ l₂ : List String) (h : ChainSeqOK (l₁ ++ l₂)) :
    ChainSeqOK l₁ := by
  obtain ⟨k, hk, heq⟩ := h
  have h2 := congrArg (List.take l₁.length) heq
  rw [List.take_left, List.take_take] at h2
  exact ⟨l₁.length ⊓ k, lt_of_le_of_lt (Nat.min_le_right _ _) hk, h2⟩

/-- Claim C1, amended: in every state reached from genesis by the local
leader operations `add_transaction` and `mine_block`, the chain-order action
sequence of every batch is a leading segment of the canonical eight-step
workflow (hence has no repeats, the workflow verbs being pairwise distinct).
The restriction to the local operations is forced: `accept_block`,
`sync_mempool` and chain adoption perform no workflow validation, so the
property is not an invariant of the full step relation. -/
theorem c1_workflow_order (vf : Tx → Bool) (s : BCState) (hr : ReachableL vf s)
    (batch_id : String) :
    ChainSeqOK (existingActions s batch_id) :=
  chainseq_left _ _ (reachableL_inv vf s hr batch_id)

/-- A difficulty-0 replica admits `registered` for batch `B1` and then mines
it. -/
theorem reachableL_sZ2 : ReachableL vf0 sZ2 := by
  have h1 : ReachableL vf0 sZ1 :=
    ReachableL.step s0z sZ1 (ReachableL.init 0 true 1000 g0)
      (StepL.add s0z "B1" "registered" "Supplier_A" [] none none none "T1" 9)
  exact ReachableL.step sZ1 sZ2 h1 (StepL.mine sZ1 "T2" 9 blkZ2 sZ2 (by decide))

/-- Witness for C1 at the mined state `sZ2`. -/
theorem c1_witness : ChainSeqOK (existingActions sZ2 "B1") :=
  c1_workflow_order vf0 sZ2 reachableL_sZ2 "B1"

/-- Claim C1 as stated is false: the replica state `sA` is reachable (by the
listed operation `accept_block`, which validates hashes but no workflow
order), yet batch `B2` carries the chain-order action sequence `[sold]`,
which is not a leading segment of the canonical workflow. -/
theorem c1_counterexample :
    Reachable vf0 sA ∧ ¬ ChainSeqOK (existingActions sA "B2") :=
  ⟨reachable_sA, by decide⟩

/-- Filtering the chain-and-mempool union to one batch lists exactly the
combined chain-then-mempool actions. -/
theorem allTxs_filter_eq (s : BCState) (b : String) :
    ((allTxs s).filter fun tx => tx.batch_id == b).map (fun tx => tx.action)
      = existingActions s b ++ mempoolActions s b := by
  rw [allTxs, List.filter_append, List.map_append, existingActions_eq, mempoolActions]
  congr 1
  rw [List.filter_flatMap]

/-- Per-batch action distinctness forces pairwise-distinct composite keys. -/
theorem pairwise_of_batch_nodup (l : List Tx)
    (h : ∀ b, ((l.filter fun tx => tx.batch_id == b).map fun tx => tx.action).Nodup) :
    List.Pairwise (fun t₁ t₂ => txCompositeKey t₁ ≠ txCompositeKey t₂) l := by
  induction l with
  | nil => exact List.Pairwise.nil
  | cons t rest ih =>
    refine List.Pairwise.cons ?_ (ih ?_)
    · intro t' ht' heq
      have hb : t.batch_id = t'.batch_id := congrArg (fun p => p.1) heq
      have ha : t.action = t'.action := congrArg (fun p => p.2.1) heq
      have hnd := h t.batch_id
      rw [List.filter_cons] at hnd
      rw [if_pos (by exact beq_self_eq_true t.batch_id)] at hnd
      rw [List.map_cons, List.nodup_cons] at hnd
      apply hnd.1
      have ht'f : t' ∈ rest.filter (fun tx => tx.batch_id == t.batch_id) :=
        List.mem_filter.mpr ⟨ht', by simpa using hb.symm⟩
      rw [ha]
      exact List.mem_map_of_mem (fun tx => tx.action) ht'f
    · intro b
      have hnd := h b
      rw [List.filter_cons] at hnd
      by_cases htb : (t.batch_id == b) = true
      · rw [if_pos htb, List.map_cons, List.nodup_cons] at hnd
        exact hnd.2
      · rw [if_neg htb] at hnd
        exact hnd

/-- Claim C4, amended: in every state reached from genesis by the local
leader operations `add_transaction` and `mine_block`, no two distinct
transactions in the chain-and-mempool union share the composite key
`(batch_id, action, timestamp)`. The restriction is forced: `sync_mempool`
deduplicates an incoming mempool only against the local mempool, never
against the chain, so one sync step can put a transaction already mined into
the mempool again. -/
theorem c4_key_uniqueness (vf : Tx → Bool) (s : BCState) (hr : ReachableL vf s) :
    List.Pairwise (fun t₁ t₂ => txCompositeKey t₁ ≠ txCompositeKey t₂) (allTxs s) := by
  apply pairwise_of_batch_nodup
  intro b
  rw [allTxs_filter_eq]
  exact chainseq_nodup _ (reachableL_inv vf s hr b)

/-- Witness for C4 at the mined state `sZ2`. -/
theorem c4_witness :
    List.Pairwise (fun t₁ t₂ => txCompositeKey t₁ ≠ txCompositeKey t₂) (allTxs sZ2) :=
  c4_key_uniqueness vf0 sZ2 reachableL_sZ2

/-- Claim C4 as stated is false: after `sA` accepts the block carrying
`txSoldB`, one `sync_mempool` of a remote mempool carrying the same
transaction appends it to the local mempool again (the merge checks the local
mempool keys only, never the chain), so the reachable state `sD` holds two
transactions with the composite key of `txSoldB`. -/
theorem c4_counterexample :
    Reachable vf0 sD
    ∧ ¬ List.Pairwise (fun t₁ t₂ => txCompositeKey t₁ ≠ txCompositeKey t₂) (allTxs sD) := by
  constructor
  · exact Reachable.step sA sD reachable_sA
      (Step.syncmp sA [txSoldB] "2025-01-06T00:00:00")
  · decide
